import Mathlib

/-!
Verification of `examples/research_projects/codeparrot/scripts/preprocessing.py`.

The script computes per-record statistics (content hash, line-length
statistics, alphanumeric fraction, autogenerated flag), deduplicates records
by destructively consuming a set of first-seen hashes, filters records with
fixed heuristics, and writes the survivors in fixed-size compressed shards.

Modelling conventions:
* Python floating point arithmetic (`np.mean`) is modelled with exact `Rat`
  arithmetic; `np.mean([])`, which yields NaN in NumPy, is modelled as `none`.
* Python's built-in string `hash` is an unspecified well-distributed function;
  it is modelled as an arbitrary parameter `hashFn : String → Int`.
* Character classification (`str.isalnum`, `str.lower`) is modelled by the
  ASCII predicates of Lean's `Char`, which agree with Python on the ASCII
  inputs appearing in the claims.
* The Python `set` of hashes is a `Finset Int`; mutation is explicit state
  passing.
-/

namespace CodeParrot

/-- Line-boundary characters recognised by Python's `str.splitlines`:
LF, VT, FF, CR, FS, GS, RS, NEL, LINE SEPARATOR, PARA SEPARATOR. -/
def isLineBoundary (c : Char) : Bool :=
  [10, 11, 12, 13, 28, 29, 30, 133, 8232, 8233].contains c.toNat

/-- Worker for `pySplitlines`: `acc` holds the current line reversed.
`"\r\n"` counts as a single boundary; a trailing boundary does not open an
extra empty line, and the empty string yields no lines, as in Python. -/
def splitlinesAux : List Char → List Char → List String
  | [], [] => []
  | [], acc => [String.mk acc.reverse]
  | '\r' :: '\n' :: rest, acc => String.mk acc.reverse :: splitlinesAux rest []
  | c :: rest, acc =>
      if isLineBoundary c then String.mk acc.reverse :: splitlinesAux rest []
      else splitlinesAux rest (c :: acc)

/-- Python `str.splitlines` (without `keepends`). -/
def pySplitlines (s : String) : List String :=
  splitlinesAux s.data []

/-- Kinds of Python exceptions relevant to the statistics stage.  The spec's
error taxonomy names `DataError`; the source raises the built-in
`ValueError` (from `max` of an empty sequence). -/
inductive StatsError where
  | valueError
  | dataError
deriving DecidableEq, Repr

/-- `line_stats` (preprocessing.py lines 16–19): per-line lengths of the
content, their arithmetic mean (`np.mean`, exact rational here) and their
maximum (`max`).  On content with zero lines (`splitlines` empty), Python's
`max([])` raises `ValueError`; `np.mean([])` only warns and yields NaN, so
the raised exception is the `ValueError`. -/
def line_stats (content : String) : Except StatsError (Rat × Nat) :=
  let lineLengths := (pySplitlines content).map String.length
  match lineLengths with
  | [] => .error .valueError
  | l :: ls => .ok ((lineLengths.sum : Rat) / (lineLengths.length : Rat), ls.foldl max l)

/-- Python `str.isalnum` on one character, modelled by ASCII alphanumerics. -/
def pyIsAlnum (c : Char) : Bool :=
  c.isAlphanum

/-- `alpha_stats` (preprocessing.py lines 22–25): mean of the boolean
`isalnum` indicators over all characters of the content.  For empty content
`np.mean([])` is NaN, modelled as `none`. -/
def alpha_stats (content : String) : Option Rat :=
  let indicators := content.data.map pyIsAlnum
  if indicators.isEmpty then none
  else some ((indicators.count true : Rat) / (indicators.length : Rat))

/-- `check_uniques` (preprocessing.py lines 28–34): if the example's hash is
still in the set of unique hashes, remove it and return `True`; otherwise
return `False`.  Returns the verdict together with the updated set. -/
def check_uniques (h : Int) (uniques : Finset Int) : Bool × Finset Int :=
  if h ∈ uniques then (true, uniques.erase h) else (false, uniques)

/-- `n` successive calls of `check_uniques` for the same hash `h`,
threading the set state; returns the list of verdicts.  This models a run
of records all sharing one content, hence one hash. -/
def consumeSeq (h : Int) : Nat → Finset Int → List Bool
  | 0, _ => []
  | n + 1, u => (check_uniques h u).1 :: consumeSeq h n (check_uniques h u).2

/-- Does the character list `pat` occur as a leading block of `s`? -/
def startsWithChars : List Char → List Char → Bool
  | [], _ => true
  | _ :: _, [] => false
  | p :: ps, c :: cs => p == c && startsWithChars ps cs

/-- Does the character list `pat` occur contiguously anywhere in `s`?
(Python's `pat in s` for strings.) -/
def hasSubChars (pat : List Char) : List Char → Bool
  | [] => pat.isEmpty
  | c :: cs => startsWithChars pat (c :: cs) || hasSubChars pat cs

/-- Python's substring test `pat in s`. -/
def pyStrContains (s pat : String) : Bool :=
  hasSubChars pat.data s.data

/-- Python `str.lower`, modelled by ASCII lowercasing of each character. -/
def pyLower (s : String) : String :=
  String.mk (s.data.map Char.toLower)

/-- `is_autogenerated` (preprocessing.py lines 37–47): scan the first 5 lines
for any of the fixed keywords, case-insensitively; `True` on first match,
else `False`. -/
def is_autogenerated (content : String) : Bool :=
  let keywords := ["auto-generated", "autogenerated", "automatically generated"]
  let lines := (pySplitlines content).take 5
  lines.any fun line => keywords.any fun keyword => pyStrContains (pyLower line) keyword

/-- A record after `preprocess`: its content together with the derived
attributes attached by `ds.map(preprocess)`. -/
structure PyExample where
  content : String
  hash : Int
  line_mean : Rat
  line_max : Nat
  alpha_frac : Rat
  autogenerated : Bool
deriving DecidableEq, Repr

/-- `preprocess` (preprocessing.py lines 50–57): chain `get_hash`,
`line_stats`, `alpha_stats` and `is_autogenerated` on one record.
`get_hash` applies the Python string `hash`, modelled by the parameter
`hashFn`.  A `ValueError` raised inside `line_stats` propagates; when
`line_stats` succeeds the content is nonempty, so `alpha_stats` is defined
(the `none` fallback below is unreachable). -/
def preprocess (hashFn : String → Int) (content : String) : Except StatsError PyExample :=
  match line_stats content with
  | .error e => .error e
  | .ok (m, mx) =>
    match alpha_stats content with
    | none => .error .valueError
    | some a => .ok ⟨content, hashFn content, m, mx, a, is_autogenerated content⟩

/-- `filter` (preprocessing.py lines 60–73): heuristic filter.  Checks in
order: hash uniqueness (mutating the set), autogenerated flag,
`line_max > 1000`, `line_mean > 100`, `alpha_frac < 0.25`; short-circuits
on the first failing check.  Returns the verdict and the updated set. -/
def filter (ex : PyExample) (uniques : Finset Int) : Bool × Finset Int :=
  match check_uniques ex.hash uniques with
  | (false, u) => (false, u)
  | (true, u) =>
    if ex.autogenerated then (false, u)
    else if ex.line_max > 1000 then (false, u)
    else if ex.line_mean > 100 then (false, u)
    else if ex.alpha_frac < (1 / 4 : Rat) then (false, u)
    else (true, u)

/-- `ds.filter(filter, fn_kwargs={"uniques": uniques})` (line 114): apply
`filter` to each record in dataset order, threading the mutated set; the
list of verdicts is returned together with the final set state. -/
def filterPass (exs : List PyExample) (uniques : Finset Int) : List Bool × Finset Int :=
  match exs with
  | [] => ([], uniques)
  | e :: rest =>
    match filter e uniques with
    | (b, u) =>
      match filterPass rest u with
      | (bs, u2) => (b :: bs, u2)

/-- `uniques = set(ds.unique("hash"))` (line 108): the set of all hash
values occurring in the dataset. -/
def buildUniques (exs : List PyExample) : Finset Int :=
  (exs.map PyExample.hash).toFinset

/-- The hash export (line 105): `ds.remove_columns(["content"]).to_json`
writes one row per record, carrying each record's hash, before filtering. -/
def hashExport (exs : List PyExample) : List Int :=
  exs.map PyExample.hash

/-- `ds.map(preprocess)` (line 99) over an in-memory dataset: preprocess
every record in order; the first raised exception propagates. -/
def preprocessAll (hashFn : String → Int) : List String → Except StatsError (List PyExample)
  | [] => .ok []
  | c :: cs =>
    match preprocess hashFn c with
    | .error e => .error e
    | .ok ex =>
      match preprocessAll hashFn cs with
      | .error e => .error e
      | .ok exs => .ok (ex :: exs)

/-- The module-level pipeline (lines 97–116) on an in-memory dataset:
preprocess every record, export the hashes, build the unique-hash set, and
run the filter pass.  Returns the exported hashes and the per-record
filter verdicts. -/
def runPipeline (hashFn : String → Int) (contents : List String) :
    Except StatsError (List Int × List Bool) :=
  match preprocessAll hashFn contents with
  | .error e => .error e
  | .ok exs => .ok (hashExport exs, (filterPass exs (buildUniques exs)).1)

/-- Worker for `shards`: cut off `k + 1` elements per shard.  Mirrors one
iteration of the output loop (lines 122–126): the shard at start index
`index` is `select(range(index, min(len, index + samples_per_file)))`,
i.e. `take (k+1)` of the remaining records. -/
def shardsGo (k : Nat) : List α → List (List α)
  | [] => []
  | x :: xs => ((x :: xs).take (k + 1)) :: shardsGo k (xs.drop k)
termination_by xs => xs.length
decreasing_by
  simp only [List.length_drop, List.length_cons]
  omega

/-- The output loop (lines 122–126): partition the filtered records into
consecutive shards of `samplesPerFile` records (`range(0, len, spf)` with
`end_index = min(len, index + spf)`).  Python's `range` raises on step 0,
so the model is only meaningful for a positive shard size. -/
def shards (samplesPerFile : Nat) (l : List α) : List (List α) :=
  match samplesPerFile with
  | 0 => []
  | k + 1 => shardsGo k l

/-- On-disk state of one shard index: whether the uncompressed `.json`
file exists, and the state of the `.gz` file (`none` = absent,
`some false` = created but half-written, `some true` = fully written). -/
structure ShardFs where
  srcExists : Bool
  gzFile : Option Bool
deriving DecidableEq, Repr

/-- `compress_file` (preprocessing.py lines 76–81), modelled as a state
transformer on the shard's on-disk state.  `copyOk` says whether the
`shutil.copyfileobj` byte copy completes.  `gzip.open(path + ".gz", "wb")`
creates the compressed file before any bytes are copied.  On success both
`with` blocks close and `os.unlink` removes the source.  On an `IOError`
the exception propagates out of the `with` blocks: `os.unlink` never runs,
the source remains, and the half-written `.gz` file remains on disk.
Returns whether the call completed normally, with the final state. -/
def compress_file (copyOk : Bool) (fs : ShardFs) : Bool × ShardFs :=
  if copyOk then (true, ⟨false, some true⟩)
  else (false, ⟨fs.srcExists, some false⟩)

/-! ## Helper lemmas -/

lemma check_uniques_mem {h : Int} {u : Finset Int} (hm : h ∈ u) :
    check_uniques h u = (true, u.erase h) := by
  simp [check_uniques, hm]

lemma check_uniques_not_mem {h : Int} {u : Finset Int} (hm : h ∉ u) :
    check_uniques h u = (false, u) := by
  simp [check_uniques, hm]

lemma consumeSeq_not_mem (h : Int) (n : Nat) (u : Finset Int) (hm : h ∉ u) :
    consumeSeq h n u = List.replicate n false := by
  induction n generalizing u with
  | zero => simp [consumeSeq]
  | succ n ih =>
      simp [consumeSeq, check_uniques_not_mem hm, List.replicate_succ, ih u hm]

lemma filter_eq (ex : PyExample) (u : Finset Int) :
    filter ex u =
      ((decide (ex.hash ∈ u) && !ex.autogenerated && !decide (1000 < ex.line_max) &&
        !decide ((100 : Rat) < ex.line_mean) && !decide (ex.alpha_frac < 1 / 4)),
       u.erase ex.hash) := by
  by_cases hm : ex.hash ∈ u
  · simp only [filter, check_uniques_mem hm, hm]
    split_ifs with h1 h2 h3 h4 <;> simp_all
  · simp [filter, check_uniques_not_mem hm, hm, Finset.erase_eq_self.mpr hm]

/-! ## Claim theorems -/

/-- **C2.** For every hash `h` present in the uniques set, the first call of
`check_uniques` returns `true` and removes `h` from the set; every
subsequent call for the same `h` returns `false`.  Hence for `N ≥ 1`
records sharing one hash, `check_uniques` returns `true` for exactly one
of them (the first visited), regardless of order — the records being
indistinguishable, the run is the sequence `consumeSeq`. -/
theorem check_uniques_consume_once (h : Int) (u : Finset Int) (hmem : h ∈ u)
    (N : Nat) (hN : 1 ≤ N) :
    check_uniques h u = (true, u.erase h) ∧
    h ∉ (check_uniques h u).2 ∧
    (∀ v : Finset Int, h ∉ v → check_uniques h v = (false, v)) ∧
    consumeSeq h N u = true :: List.replicate (N - 1) false ∧
    (consumeSeq h N u).count true = 1 := by
  obtain ⟨m, rfl⟩ : ∃ m, N = m + 1 := ⟨N - 1, (Nat.succ_pred_eq_of_pos hN).symm⟩
  refine ⟨check_uniques_mem hmem, ?_, fun v hv => check_uniques_not_mem hv, ?_, ?_⟩
  · rw [check_uniques_mem hmem]
    exact Finset.not_mem_erase h u
  · simp [consumeSeq, check_uniques_mem hmem,
      consumeSeq_not_mem h m _ (Finset.not_mem_erase h u)]
  · simp [consumeSeq, check_uniques_mem hmem,
      consumeSeq_not_mem h m _ (Finset.not_mem_erase h u), List.count_replicate]

/-- Witness for C2 at `h = 0`, `u = {0}`, `N = 3`. -/
theorem check_uniques_consume_once_witness :
    (0 : Int) ∈ ({0} : Finset Int) ∧ 1 ≤ 3 ∧
    (check_uniques 0 {0} = (true, Finset.erase {0} 0) ∧
     (0 : Int) ∉ (check_uniques 0 {0}).2 ∧
     (∀ v : Finset Int, (0 : Int) ∉ v → check_uniques 0 v = (false, v)) ∧
     consumeSeq 0 3 {0} = true :: List.replicate 2 false ∧
     (consumeSeq 0 3 {0}).count true = 1) :=
  ⟨by decide, by decide, check_uniques_consume_once 0 {0} (by decide) 3 (by decide)⟩

/-- **C4.** On content with zero lines (the empty string) the source's
`line_stats` raises the generic `ValueError` from `max` of an empty
sequence — it neither raises the spec's `DataError` nor returns
`line_max = 0`; the claim describes the spec's intended behaviour and the
code does a third thing. -/
theorem line_stats_empty_raises_valueError :
    line_stats "" = .error .valueError ∧
    StatsError.valueError ≠ StatsError.dataError :=
  ⟨rfl, by decide⟩

/-- **C5, counterexample.** At the empty content string, `alpha_stats`
returns no rational value at all (`np.mean([])` is NaN), so it does not
return a value in `[0, 1]` for *every* content string. -/
theorem alpha_stats_empty_no_value :
    ¬ ∃ q : Rat, alpha_stats "" = some q ∧ 0 ≤ q ∧ q ≤ 1 := by
  rintro ⟨q, hq, -⟩
  have h0 : alpha_stats "" = none := rfl
  rw [h0] at hq
  exact Option.noConfusion hq

/-- **C5, amended.** For every *nonempty* content string, `alpha_stats`
returns a value in the closed interval `[0, 1]`. -/
theorem alpha_stats_mem_unit_interval (content : String) (hne : content ≠ "") :
    ∃ q : Rat, alpha_stats content = some q ∧ 0 ≤ q ∧ q ≤ 1 := by
  have hd : content.data ≠ [] := fun h => hne (by cases content; cases h; rfl)
  have hne2 : content.data.map pyIsAlnum ≠ [] := by simpa using hd
  refine ⟨((content.data.map pyIsAlnum).count true : Rat) /
      ((content.data.map pyIsAlnum).length : Rat), ?_, ?_, ?_⟩
  · simp [alpha_stats, List.isEmpty_iff, hne2]
  · positivity
  · rw [div_le_one (by exact_mod_cast List.length_pos.mpr hne2)]
    exact_mod_cast List.count_le_length true (content.data.map pyIsAlnum)

/-- Witness for the amended C5 at content `"a\nb"`. -/
theorem alpha_stats_mem_unit_interval_witness :
    "a\nb" ≠ "" ∧ ∃ q : Rat, alpha_stats "a\nb" = some q ∧ 0 ≤ q ∧ q ≤ 1 :=
  ⟨by decide, alpha_stats_mem_unit_interval "a\nb" (by decide)⟩

/-- **C3.** `filter` checks, in order: duplicate, autogenerated,
`line_max > 1000`, `line_mean > 100`, `alpha_frac < 0.25`, short-circuiting
on the first failure (the verdict is the ordered conjunction below); its
only effect on the uniques set is that afterwards the set equals the prior
set minus the record's hash — removed even when the verdict is `false` by
a later heuristic, no other element added or removed. -/
theorem filter_order_and_frame (ex : PyExample) (u : Finset Int) :
    (filter ex u).2 = u.erase ex.hash ∧
    ex.hash ∉ (filter ex u).2 ∧
    (∀ x : Int, x ≠ ex.hash → ((x ∈ (filter ex u).2) ↔ x ∈ u)) ∧
    (filter ex u).1 = (decide (ex.hash ∈ u) && !ex.autogenerated &&
      !decide (1000 < ex.line_max) && !decide ((100 : Rat) < ex.line_mean) &&
      !decide (ex.alpha_frac < 1 / 4)) := by
  rw [filter_eq]
  refine ⟨rfl, Finset.not_mem_erase _ _, ?_, rfl⟩
  intro x hx
  simp [Finset.mem_erase, hx]

/-- Witness for C3 at a concrete autogenerated record (rejected by a later
heuristic, hash still consumed) and the untouched element `x = 7`. -/
theorem filter_order_and_frame_witness :
    (7 : Int) ≠ (5 : Int) ∧
    (((7 : Int) ∈ (filter ⟨"a", 5, 1, 1, 1, true⟩ {5, 7}).2) ↔
      (7 : Int) ∈ ({5, 7} : Finset Int)) :=
  ⟨by decide, (filter_order_and_frame ⟨"a", 5, 1, 1, 1, true⟩ {5, 7}).2.2.1 7 (by decide)⟩

/-- Is the shard's on-disk state one of the two forms the spec allows after
`compress_file`: the finished compressed shard alone, or nothing? -/
def unambiguousShardState (fs : ShardFs) : Bool :=
  (fs.srcExists == false && fs.gzFile == some true) ||
  (fs.srcExists == false && fs.gzFile == none)

/-- **C9, counterexample.** When the byte copy fails on a fresh shard
directory state, `compress_file` leaves the intact source *and* a
half-written `.gz` file: an ambiguous state that is neither the finished
compressed shard nor nothing. -/
theorem compress_file_failure_leaves_partial :
    compress_file false ⟨true, none⟩ = (false, ⟨true, some false⟩) ∧
    unambiguousShardState (compress_file false ⟨true, none⟩).2 = false := by
  decide

/-- **C9, amended.** On a failed copy the uncompressed source is never
deleted (deletion happens only after a completed compression, whose final
state is exactly the finished shard), and a half-written compressed file
never stands in place of a deleted source: whenever the final state holds
a half-written `.gz`, the source file is exactly as it was before the
call.  However, on failure the directory is left with the intact source
plus the half-written `.gz`, not "the finished shard or nothing". -/
theorem compress_file_source_safety (fs : ShardFs) (copyOk : Bool) :
    (compress_file false fs).2.srcExists = fs.srcExists ∧
    (compress_file false fs).1 = false ∧
    compress_file true fs = (true, ⟨false, some true⟩) ∧
    ((compress_file copyOk fs).2.gzFile = some false →
      (compress_file copyOk fs).2.srcExists = fs.srcExists) := by
  cases copyOk <;> simp [compress_file]

/-- Witness for the amended C9 at a concrete pre-state. -/
theorem compress_file_source_safety_witness :
    (compress_file false ⟨true, none⟩).2.gzFile = some false ∧
    (compress_file false ⟨true, none⟩).2.srcExists = (⟨true, none⟩ : ShardFs).srcExists :=
  ⟨by decide, (compress_file_source_safety ⟨true, none⟩ false).2.2.2 (by decide)⟩

lemma splitlinesAux_ne_nil (cs acc : List Char) (h : cs ≠ [] ∨ acc ≠ []) :
    splitlinesAux cs acc ≠ [] := by
  induction cs, acc using splitlinesAux.induct with
  | case1 => simp at h
  | case2 acc hacc => simp [splitlinesAux]
  | case3 rest acc ih => simp [splitlinesAux]
  | case4 c rest acc hne hlb ih =>
      rw [splitlinesAux.eq_def]
      split <;> simp_all
  | case5 c rest acc hne hlb ih =>
      rw [splitlinesAux.eq_def]
      split <;> simp_all

lemma pySplitlines_ne_nil (content : String) (hd : content.data ≠ []) :
    pySplitlines content ≠ [] :=
  splitlinesAux_ne_nil content.data [] (Or.inl hd)

lemma le_foldl_max (ls : List Nat) : ∀ a : Nat, a ≤ ls.foldl max a := by
  induction ls with
  | nil => intro a; simp
  | cons b bs ih =>
      intro a
      rw [List.foldl_cons]
      exact le_trans (le_max_left a b) (ih (max a b))

lemma mem_le_foldl_max (ls : List Nat) : ∀ a x : Nat, x ∈ ls → x ≤ ls.foldl max a := by
  induction ls with
  | nil => intro a x hx; simp at hx
  | cons b bs ih =>
      intro a x hx
      rcases List.mem_cons.mp hx with rfl | hx
      · rw [List.foldl_cons]
        exact le_trans (le_max_right a x) (le_foldl_max bs _)
      · rw [List.foldl_cons]
        exact ih _ x hx

/-- **C8.** For every record with non-empty content, `line_stats` succeeds
and the arithmetic mean of the per-line lengths never exceeds their
maximum: `line_mean ≤ line_max`. -/
theorem line_mean_le_line_max (content : String) (hne : content ≠ "") :
    ∃ m : Rat, ∃ mx : Nat, line_stats content = .ok (m, mx) ∧ m ≤ (mx : Rat) := by
  have hd : content.data ≠ [] := fun h => hne (by cases content; cases h; rfl)
  obtain ⟨line, rest, hobt⟩ := List.exists_cons_of_ne_nil (pySplitlines_ne_nil content hd)
  have hls : (pySplitlines content).map String.length =
      line.length :: rest.map String.length := by rw [hobt]; rfl
  set L := line.length with hL
  set Ls := rest.map String.length with hLs
  refine ⟨((((L :: Ls).sum : Nat)) : Rat) / ((((L :: Ls).length : Nat)) : Rat),
    Ls.foldl max L, ?_, ?_⟩
  · simp only [line_stats, hls]
  · have hsum : (L :: Ls).sum ≤ (L :: Ls).length * Ls.foldl max L := by
      have := List.sum_le_card_nsmul (L :: Ls) (Ls.foldl max L) ?_
      · simpa [smul_eq_mul] using this
      · intro x hx
        rcases List.mem_cons.mp hx with rfl | hx
        · exact le_foldl_max Ls _
        · exact mem_le_foldl_max Ls L x hx
    have hlen : (0 : Rat) < ((((L :: Ls).length : Nat)) : Rat) := by
      exact_mod_cast Nat.succ_pos Ls.length
    rw [div_le_iff₀ hlen]
    calc ((((L :: Ls).sum : Nat)) : Rat)
        ≤ (((L :: Ls).length * Ls.foldl max L : Nat) : Rat) := by exact_mod_cast hsum
      _ = ((Ls.foldl max L : Nat) : Rat) * ((((L :: Ls).length : Nat)) : Rat) := by
          rw [Nat.cast_mul, mul_comm]

/-- Witness for C8 at content `"a\nb"`. -/
theorem line_mean_le_line_max_witness :
    "a\nb" ≠ "" ∧
    ∃ m : Rat, ∃ mx : Nat, line_stats "a\nb" = .ok (m, mx) ∧ m ≤ (mx : Rat) :=
  ⟨by decide, line_mean_le_line_max "a\nb" (by decide)⟩

lemma shardsGo_flatten {α : Type u} (k : Nat) : ∀ l : List α, (shardsGo k l).flatten = l
  | [] => by simp [shardsGo]
  | x :: xs => by
      rw [shardsGo, List.flatten_cons, shardsGo_flatten k (xs.drop k),
        List.take_succ_cons, List.cons_append, List.take_append_drop]
termination_by l => l.length
decreasing_by
  simp only [List.length_drop, List.length_cons]
  omega

/-- **C6.** For every positive shard size, concatenating the shards of the
output loop in order reproduces exactly the filtered record sequence: no
record dropped, duplicated, or reordered. -/
theorem shards_flatten_eq {α : Type u} (spf : Nat) (hspf : 0 < spf) (l : List α) :
    (shards spf l).flatten = l := by
  obtain ⟨k, rfl⟩ : ∃ k, spf = k + 1 := ⟨spf - 1, by omega⟩
  exact shardsGo_flatten k l

/-- Witness for C6 at five records and shard size 2. -/
theorem shards_flatten_eq_witness :
    0 < 2 ∧ (shards 2 [10, 20, 30, 40, 50]).flatten = [10, 20, 30, 40, 50] :=
  ⟨by decide, shards_flatten_eq 2 (by decide) [10, 20, 30, 40, 50]⟩

lemma shardsGo_map_length {α : Type u} (k : Nat) : ∀ l : List α,
    (shardsGo k l).map List.length =
      List.replicate (l.length / (k + 1)) (k + 1) ++
        (if l.length % (k + 1) = 0 then [] else [l.length % (k + 1)])
  | [] => by simp [shardsGo]
  | x :: xs => by
      rw [shardsGo, List.map_cons, shardsGo_map_length k (xs.drop k)]
      by_cases hle : k + 1 ≤ xs.length + 1
      · have hlen1 : ((x :: xs).take (k + 1)).length = k + 1 := by
          simp only [List.length_take, List.length_cons]
          omega
        have hsub : xs.length + 1 - (k + 1) = xs.length - k := by omega
        rw [hlen1, List.length_drop, List.length_cons,
          Nat.div_eq_sub_div (Nat.succ_pos k) hle, Nat.mod_eq_sub_mod hle, hsub,
          List.replicate_succ, List.cons_append]
      · have hxs : xs.length < k := by omega
        have hdrop : xs.drop k = [] := List.drop_eq_nil_of_le (le_of_lt hxs)
        have hm : (xs.length + 1) % (k + 1) = xs.length + 1 :=
          Nat.mod_eq_of_lt (by omega)
        have hdv : (xs.length + 1) / (k + 1) = 0 := Nat.div_eq_of_lt (by omega)
        simp [hdrop, shardsGo, List.length_cons, hm, hdv, List.length_take]
        omega
termination_by l => l.length
decreasing_by
  simp only [List.length_drop, List.length_cons]
  omega

/-- **C7.** For every positive shard size `spf`: the lengths of the shards
are `l.length / spf` full shards of exactly `spf` records followed by a
last shard of `l.length % spf` records when the length is not evenly
divisible (and nothing extra otherwise); hence every shard except possibly
the last has exactly `spf` records, and the last has `l.length % spf`
records, or exactly `spf` when evenly divisible. -/
theorem shards_sizes {α : Type u} (spf : Nat) (hspf : 0 < spf) (l : List α) :
    (shards spf l).map List.length =
      List.replicate (l.length / spf) spf ++
        (if l.length % spf = 0 then [] else [l.length % spf]) ∧
    (∀ i : Nat, i + 1 < (shards spf l).length →
      ((shards spf l).map List.length)[i]? = some spf) ∧
    (l ≠ [] → ((shards spf l).map List.length).getLast? =
      some (if l.length % spf = 0 then spf else l.length % spf)) := by
  obtain ⟨k, rfl⟩ : ∃ k, spf = k + 1 := ⟨spf - 1, by omega⟩
  have hmain := shardsGo_map_length k l
  have hshards : shards (k + 1) l = shardsGo k l := rfl
  refine ⟨by rw [hshards]; exact hmain, ?_, ?_⟩
  · intro i hi
    rw [hshards, hmain]
    have hlen : (shardsGo k l).length =
        l.length / (k + 1) +
          (if l.length % (k + 1) = 0 then 0 else 1) := by
      have := congrArg List.length hmain
      simp only [List.length_map, List.length_append, List.length_replicate] at this
      rw [this]
      by_cases h0 : l.length % (k + 1) = 0 <;> simp [h0]
    rw [hshards] at hi
    by_cases h0 : l.length % (k + 1) = 0
    · have hi2 : i < l.length / (k + 1) := by
        rw [hlen, h0] at hi
        simp at hi
        omega
      simp [h0, List.getElem?_replicate, hi2]
    · have hi2 : i < l.length / (k + 1) := by
        rw [hlen] at hi
        simp [h0] at hi
        omega
      rw [if_neg h0, List.getElem?_append_left (by simpa using hi2),
        List.getElem?_replicate, if_pos hi2]
  · intro hne
    rw [hshards, hmain]
    by_cases h0 : l.length % (k + 1) = 0
    · have hpos : 0 < l.length := List.length_pos.mpr hne
      have hdvd : (k + 1) ∣ l.length := Nat.dvd_of_mod_eq_zero h0
      have hqpos : 0 < l.length / (k + 1) :=
        Nat.div_pos (Nat.le_of_dvd hpos hdvd) (Nat.succ_pos k)
      obtain ⟨m, hm⟩ : ∃ m, l.length / (k + 1) = m + 1 :=
        ⟨l.length / (k + 1) - 1, by omega⟩
      rw [if_pos h0, if_pos h0, hm, List.append_nil, List.replicate_succ',
        List.getLast?_concat]
    · rw [if_neg h0, if_neg h0, List.getLast?_concat]

/-- Witness for C7 at five records and shard size 2. -/
theorem shards_sizes_witness :
    0 < 2 ∧
    ((shards 2 [10, 20, 30, 40, 50]).map List.length =
      List.replicate (([10, 20, 30, 40, 50] : List Nat).length / 2) 2 ++
        (if ([10, 20, 30, 40, 50] : List Nat).length % 2 = 0 then []
         else [([10, 20, 30, 40, 50] : List Nat).length % 2]) ∧
     (∀ i : Nat, i + 1 < (shards 2 [10, 20, 30, 40, 50]).length →
       ((shards 2 [10, 20, 30, 40, 50]).map List.length)[i]? = some 2) ∧
     (([10, 20, 30, 40, 50] : List Nat) ≠ [] →
       ((shards 2 [10, 20, 30, 40, 50]).map List.length).getLast? =
         some (if ([10, 20, 30, 40, 50] : List Nat).length % 2 = 0 then 2
               else ([10, 20, 30, 40, 50] : List Nat).length % 2))) :=
  ⟨by decide, shards_sizes 2 (by decide) [10, 20, 30, 40, 50]⟩

lemma filterPass_nil (u : Finset Int) : filterPass [] u = ([], u) := rfl

lemma filterPass_cons (e : PyExample) (rest : List PyExample) (u : Finset Int) :
    filterPass (e :: rest) u =
      ((filter e u).1 :: (filterPass rest (filter e u).2).1,
       (filterPass rest (filter e u).2).2) := by
  rcases hf : filter e u with ⟨b, u1⟩
  rcases hp : filterPass rest u1 with ⟨bs, u2⟩
  simp [filterPass, hf, hp]

lemma filter_snd (e : PyExample) (u : Finset Int) :
    (filter e u).2 = u.erase e.hash := by
  rw [filter_eq]

/-- A record whose hash is no longer in the set is rejected, wherever it
sits in the pass. -/
lemma filterPass_false_of_not_mem (exs : List PyExample) (h : Int) :
    ∀ (u : Finset Int), h ∉ u → ∀ (j : Nat) (e : PyExample),
      exs[j]? = some e → e.hash = h → (filterPass exs u).1[j]? = some false := by
  induction exs with
  | nil => intro u _ j e hj; simp at hj
  | cons e0 rest ih =>
      intro u hnm j e hj hhash
      rw [filterPass_cons]
      cases j with
      | zero =>
          simp only [List.getElem?_cons_zero, Option.some_inj] at hj
          subst hj
          simp only [List.getElem?_cons_zero, Option.some_inj]
          rw [filter_eq]
          simp [hhash, hnm]
      | succ j' =>
          simp only [List.getElem?_cons_succ] at hj ⊢
          refine ih (filter e0 u).2 ?_ j' e hj hhash
          rw [filter_snd]
          exact fun hmem => hnm (Finset.mem_of_mem_erase hmem)

/-- **C10.** If two records (at positions `i < j`) carry the same hash —
in particular two distinct contents that collide — the later one is always
rejected: at most the first-processed record with a given hash can be
accepted, and when that first record is itself rejected by a later
heuristic the hash is still consumed, so every later record with that
hash is rejected as a duplicate and zero such records survive. -/
theorem later_same_hash_rejected (exs : List PyExample) (u : Finset Int)
    (i j : Nat) (a b : PyExample) (hij : i < j)
    (ha : exs[i]? = some a) (hb : exs[j]? = some b) (hhash : a.hash = b.hash) :
    (filterPass exs u).1[j]? = some false := by
  induction exs generalizing u i j with
  | nil => simp at ha
  | cons e0 rest ih =>
      obtain ⟨j', rfl⟩ : ∃ j', j = j' + 1 := ⟨j - 1, by omega⟩
      rw [filterPass_cons]
      simp only [List.getElem?_cons_succ] at hb ⊢
      cases i with
      | zero =>
          simp only [List.getElem?_cons_zero, Option.some_inj] at ha
          subst ha
          refine filterPass_false_of_not_mem rest b.hash (filter e0 u).2 ?_ j' b hb rfl
          rw [filter_snd, hhash]
          exact Finset.not_mem_erase _ _
      | succ i' =>
          simp only [List.getElem?_cons_succ] at ha
          exact ih (filter e0 u).2 i' j' (by omega) ha hb

/-- Witness for C10: two records with distinct contents but equal hash, the
first rejected (autogenerated), the second still rejected as duplicate. -/
theorem later_same_hash_rejected_witness :
    (0 : Nat) < 1 ∧
    [(⟨"x", 3, 1, 1, 1, true⟩ : PyExample), ⟨"y", 3, 1, 1, 1, false⟩][0]? =
      some ⟨"x", 3, 1, 1, 1, true⟩ ∧
    [(⟨"x", 3, 1, 1, 1, true⟩ : PyExample), ⟨"y", 3, 1, 1, 1, false⟩][1]? =
      some ⟨"y", 3, 1, 1, 1, false⟩ ∧
    (⟨"x", 3, 1, 1, 1, true⟩ : PyExample).hash = (⟨"y", 3, 1, 1, 1, false⟩ : PyExample).hash ∧
    (filterPass [⟨"x", 3, 1, 1, 1, true⟩, ⟨"y", 3, 1, 1, 1, false⟩] {3}).1[1]? = some false :=
  ⟨by decide, rfl, rfl, rfl,
    later_same_hash_rejected [⟨"x", 3, 1, 1, 1, true⟩, ⟨"y", 3, 1, 1, 1, false⟩] {3}
      0 1 ⟨"x", 3, 1, 1, 1, true⟩ ⟨"y", 3, 1, 1, 1, false⟩ (by decide) rfl rfl rfl⟩

/-- **C1.** Running the full pipeline on exactly the three records
`"a\nb"`, `"a\nb"`, `"AUTO-GENERATED FILE\nx"`, in that order and for any
hash function, accepts only the first record: the filter verdicts are
`[true, false, false]` (the second record's hash was already consumed, the
third is autogenerated — `is_autogenerated` returns `true` for it), and
the hash export produced before filtering contains the hashes of all three
records. -/
theorem pipeline_three_records (hashFn : String → Int) :
    runPipeline hashFn ["a\nb", "a\nb", "AUTO-GENERATED FILE\nx"] =
      .ok ([hashFn "a\nb", hashFn "a\nb", hashFn "AUTO-GENERATED FILE\nx"],
        [true, false, false]) ∧
    is_autogenerated "AUTO-GENERATED FILE\nx" = true := by
  refine ⟨?_, rfl⟩
  have hls1 : line_stats "a\nb" = .ok (1, 1) := by
    rw [show line_stats "a\nb" = .ok ((((2 : Nat)) : Rat) / (((2 : Nat)) : Rat), 1) from rfl]
    norm_num
  have hls3 : line_stats "AUTO-GENERATED FILE\nx" = .ok (10, 19) := by
    rw [show line_stats "AUTO-GENERATED FILE\nx" =
      .ok ((((20 : Nat)) : Rat) / (((2 : Nat)) : Rat), 19) from rfl]
    norm_num
  have hp1 : preprocess hashFn "a\nb" =
      .ok ⟨"a\nb", hashFn "a\nb", 1, 1, 2 / 3, false⟩ := by
    simp only [preprocess, hls1]
    rfl
  have hal3 : alpha_stats "AUTO-GENERATED FILE\nx" = some (6 / 7) := by
    rw [show alpha_stats "AUTO-GENERATED FILE\nx" =
      some ((((18 : Nat)) : Rat) / (((21 : Nat)) : Rat)) from rfl]
    norm_num
  have hp3 : preprocess hashFn "AUTO-GENERATED FILE\nx" =
      .ok ⟨"AUTO-GENERATED FILE\nx", hashFn "AUTO-GENERATED FILE\nx", 10, 19, 6 / 7, true⟩ := by
    simp only [preprocess, hls3, hal3]
    rfl
  have hexs : preprocessAll hashFn ["a\nb", "a\nb", "AUTO-GENERATED FILE\nx"] =
      .ok [⟨"a\nb", hashFn "a\nb", 1, 1, 2 / 3, false⟩,
        ⟨"a\nb", hashFn "a\nb", 1, 1, 2 / 3, false⟩,
        ⟨"AUTO-GENERATED FILE\nx", hashFn "AUTO-GENERATED FILE\nx", 10, 19, 6 / 7, true⟩] := by
    simp only [preprocessAll, hp1, hp3]
  simp only [runPipeline, hexs, hashExport, buildUniques, List.map_cons, List.map_nil,
    List.toFinset_cons, List.toFinset_nil, filterPass_cons, filterPass_nil, filter_eq]
  norm_num [Finset.mem_insert, Finset.not_mem_erase]

end CodeParrot
